import Mathlib

/-!
# Verification of the qcow2 metadata engine (vasi/qcow2)

A shallow embedding, in Lean, of the core metadata engine of the qcow2
library: the header feature gate (header.go), the L1/L2 mapping-entry
predicates and the entry fetch with copy-on-write (guest.go, final
revision), the per-cluster request slicer (perCluster), and the refcount
manager (refcounts.go): the refcount query, the refcount-block allocator
and the refcount-table growth size selection.

Machine integers of the source (uint64, int64) are embedded as Nat with
explicit modular arithmetic where a mask or truncation occurs; offsets and
cluster indices are nonnegative throughout the source, so Nat is faithful
on the reachable domain.  Container I/O is embedded as oracles (a function
from byte offset to byte or word value) plus an explicit event trace, so
that each theorem can speak about which container reads and writes an
operation performs.  Fallible paths return Except or Option.

The repository history contains several revisions of the guest-mapping
code; the definitions here follow the final revision, the one in which
mapEntry.cow reads "noCow bit clear and entry not nil" and getEntry writes
the new entry together with its noCow bit to the parent slot.
-/

namespace Qcow2

/-! ## Error kinds surfaced by the embedded operations -/

inductive Err where
  | misaligned       -- "Misaligned mapping entry"
  | compressedErr    -- "Compression not supported"
  | outOfBounds      -- guest I/O past disk size (io.ErrUnexpectedEOF)
  | badTableEntry    -- "Bad refcount table entry"
  | blockMisaligned  -- "Refcount block misaligned"
  | ioFailure        -- container-level failure
  deriving DecidableEq, Repr

/-! ## Header feature gate (header.go)

    const featureDirty = 1, featureCorrupt = 2,
          incompatibleKnown = featureDirty | featureCorrupt = 3,
          featureBitmaps = 1, autoclearKnown = featureBitmaps = 1. -/

/-- A feature-name record of the feature-name extension:
    48-byte records (u8 type, u8 bit, 46-byte name). -/
structure FeatureName where
  ftype : Nat
  bit : Nat
  name : String
  deriving DecidableEq, Repr

/-- The human-readable name the header code uses for incompatible bit i:
    the first feature-name record with type `incompatible` (= 0) and that
    bit, else the default "bit i"
    (header.go, checkIncompatibleFeatures inner loop). -/
def nameForBit (fns : List FeatureName) (i : Nat) : String :=
  match fns.find? (fun fn => fn.ftype == 0 && fn.bit == i) with
  | some fn => fn.name
  | none => "bit " ++ toString i

/-- strings.Join(names, ", ") as used by checkIncompatibleFeatures. -/
def joinComma : List String → String
  | [] => ""
  | [x] => x
  | x :: xs => x ++ ", " ++ joinComma xs

/-- The name-collection loop of checkIncompatibleFeatures:
    `for i := 0; i < 64 && unknown != 0; i++ { if unknown&1 != 0 { append };
    unknown >>= 1 }`.  The fuel argument is the loop bound 64; `unknown % 2`
    embeds `unknown & 1` and `unknown / 2` embeds `unknown >> 1`. -/
def collectNames (fns : List FeatureName) : Nat → Nat → Nat → List String
  | 0, _, _ => []
  | fuel + 1, unknown, i =>
    if unknown = 0 then []
    else
      (if unknown % 2 = 1 then [nameForBit fns i] else []) ++
        collectNames fns fuel (unknown / 2) (i + 1)

/-- checkIncompatibleFeatures (header.go): with
    `unknown := incompatible &^ incompatibleKnown` (clearing bits 0 and 1,
    i.e. `incompat - incompat % 4`), succeed when unknown is empty, else
    fail with the joined list of bit names.  Returns the error message. -/
def checkIncompatibleFeatures (incompat : Nat) (fns : List FeatureName) : Option String :=
  let unknown := incompat - incompat % 4
  if unknown = 0 then none
  else some ("Incompatible features: " ++ joinComma (collectNames fns 64 unknown 0))

/-- The feature-checking portion of headerImpl.read (header.go): for a v2
    file the feature masks are synthesized as zero; for v3 the corrupt bit
    (`incompat & 2`, embedded as `incompat / 2 % 2`) and then the dirty bit
    (`incompat & 1`, embedded as `incompat % 2`) are refused, and finally
    checkIncompatibleFeatures runs.  Returns the failure message, if any. -/
def readFeatureGate (version incompat : Nat) (fns : List FeatureName) : Option String :=
  if version = 2 then
    checkIncompatibleFeatures 0 fns
  else
    if incompat / 2 % 2 = 1 then some "Corrupt bit is set"
    else if incompat % 2 = 1 then some "Dirty bit is set"
    else checkIncompatibleFeatures incompat fns

/-- headerImpl.write masks the autoclear bitmask to autoclearKnown = 1
    before serializing: `h.v3.AutoclearFeatures &= autoclearKnown`,
    embedded as `m % 2` (keep bit 0, the bitmaps bit). -/
def writeAutoclearMask (m : Nat) : Nat := m % 2

/-- headerImpl.autoclear (header.go): if
    `AutoclearFeatures &^ autoclearKnown == 0` (no unknown autoclear bits;
    `m &^ 1` is embedded as `m - m % 2`) do nothing, else rewrite the
    header via write(), which masks the bitmask down to the known bit.
    Result: the new in-memory autoclear bitmask, and whether the header
    was rewritten. -/
def autoclearStep (m : Nat) : Nat × Bool :=
  if m - m % 2 = 0 then (m, false)
  else (writeAutoclearMask m, true)

/-! ## L1/L2 mapping entries (guest.go, final revision)

    const noCow = 1<<63, compressed = 1<<62, zeroBit = 1.
    Entries are 64-bit big-endian words; the embeddings below are stated
    for words below 2^64, where clearing bits 62 and 63 is reduction
    mod 2^62 and testing bit k is `e / 2^k % 2 = 1`. -/

def noCow : Nat := 2 ^ 63
def compressedBit : Nat := 2 ^ 62
def zeroBit : Nat := 1

/-- mapEntry.offset: `int64(uint64(e) &^ (noCow | compressed))` — the word
    with bits 63 and 62 cleared. -/
def entryOffset (e : Nat) : Nat := e % 2 ^ 62

/-- mapEntry.zero: `uint64(e) & zeroBit != 0` (L2 only). -/
def entryZero (e : Nat) : Bool := e % 2 == 1

/-- mapEntry.compressed: `uint64(e) & compressed != 0`. -/
def entryCompressed (e : Nat) : Bool := e / 2 ^ 62 % 2 == 1

/-- The noCow test `uint64(e) & noCow != 0` used by mapEntry.cow. -/
def entryNoCowSet (e : Nat) : Bool := e / 2 ^ 63 % 2 == 1

/-- mapEntry.nil: `e.offset() == 0`. -/
def entryNil (e : Nat) : Bool := entryOffset e == 0

/-- mapEntry.hasOffset: `!e.zero() && !e.nil()`. -/
def entryHasOffset (e : Nat) : Bool := !entryZero e && !entryNil e

/-- mapEntry.cow (final revision): `uint64(e)&noCow == 0 && !e.nil()`. -/
def entryCow (e : Nat) : Bool := !entryNoCowSet e && !entryNil e

/-- mapEntry.writable: `e.hasOffset() && !e.cow()`. -/
def entryWritable (e : Nat) : Bool := entryHasOffset e && !entryCow e

/-- guestImpl.validateL1: reject an entry whose offset is not
    cluster-aligned. -/
def validateL1 (cs e : Nat) : Option Err :=
  if entryOffset e % cs ≠ 0 then some .misaligned else none

/-- guestImpl.validateL2: zero entries are always valid; compressed
    entries are rejected; anything else validates like an L1 entry. -/
def validateL2 (cs e : Nat) : Option Err :=
  if entryZero e then none
  else if entryCompressed e then some .compressedErr
  else validateL1 cs e

/-! ## The guest I/O event trace

    Container accesses and refcount-manager calls made by the guest
    mapping layer, in program order. -/

inductive Ev where
  | read64 (off : Nat)                  -- io().read64 / ReadUint64
  | alloc (n : Nat)                     -- refcounts.allocate(n)
  | copy (dst src len : Nat)            -- io().copy / Copy
  | fill (off len : Nat)                -- io().fill(off, len, 0) / Zero
  | write64 (off val : Nat)             -- io().write64 / WriteUint64
  | decrement (idx : Nat)               -- refcounts.decrement(idx)
  | readBytes (off len : Nat)           -- io().ReadAt of a byte range
  | zeroFill (len : Nat)                -- zeroFill(p): fill the caller's buffer
  deriving DecidableEq, Repr

/-- The environment a guest operation runs in: the cluster size, the L1
    table position and disk size from the header, an oracle giving the
    64-bit word the container holds at a byte offset, and the cluster
    index the refcount manager hands out for allocate(1). -/
structure GuestEnv where
  cs : Nat
  l1Position : Nat
  size : Nat
  word : Nat → Nat
  allocIdx : Nat

/-- guestImpl.getEntry (final revision): read the 64-bit entry at off and
    validate it; if a writable entry is demanded and the current one is
    not writable, allocate a new cluster, initialize it (copy when the old
    entry has an offset, zero-fill otherwise), write the new entry
    `alloc | noCow` to the parent slot, decrement the old cluster's
    refcount when it had an offset, and return the new entry. -/
def getEntry (env : GuestEnv) (validator : Nat → Option Err) (off : Nat)
    (writable : Bool) : Except Err (Nat × List Ev) :=
  let e := env.word off
  match validator e with
  | some er => .error er
  | none =>
    if !writable || entryWritable e then .ok (e, [.read64 off])
    else
      let alloc := env.allocIdx * env.cs
      let newEntry := alloc ||| noCow
      let initEv := if entryHasOffset e then Ev.copy alloc (entryOffset e) env.cs
                    else Ev.fill alloc env.cs
      let derefEvs := if entryHasOffset e then [Ev.decrement (entryOffset e / env.cs)]
                      else []
      .ok (newEntry, [.read64 off, .alloc 1, initEv, .write64 off newEntry] ++ derefEvs)

/-- guestImpl.getL1: the entry lives at
    `l1Position + (idx / l2Entries) * 8` with `l2Entries = cs / 8`. -/
def getL1 (env : GuestEnv) (idx : Nat) (writable : Bool) : Except Err (Nat × List Ev) :=
  getEntry env (validateL1 env.cs) (env.l1Position + idx / (env.cs / 8) * 8) writable

/-- guestImpl.getL2: fetch the L1 entry; a read request that finds a nil
    L1 short-circuits and returns it (the L2 lookup is skipped); otherwise
    fetch the L2 entry at `l1.offset() + (idx % l2Entries) * 8`. -/
def getL2 (env : GuestEnv) (idx : Nat) (writable : Bool) : Except Err (Nat × List Ev) := do
  let (l1, tr1) ← getL1 env idx writable
  if !writable && entryNil l1 then return (l1, tr1)
  let (l2, tr2) ← getEntry env (validateL2 env.cs)
    (entryOffset l1 + idx % (env.cs / 8) * 8) writable
  return (l2, tr1 ++ tr2)

/-- guestImpl.readByL2: a nil or zero entry zero-fills the caller's
    buffer; otherwise the byte range at `l2.offset() + off` is read from
    the container. -/
def readByL2 (l2 off len : Nat) : List Ev :=
  if entryNil l2 || entryZero l2 then [.zeroFill len]
  else [.readBytes (entryOffset l2 + off) len]

/-- guestImpl.readCluster: fetch the L2 entry non-writable (under the read
    lease, which the embedding does not model), then read through it. -/
def readCluster (env : GuestEnv) (idx off len : Nat) : Except Err (List Ev) := do
  let (l2, tr) ← getL2 env idx false
  return tr ++ readByL2 l2 off len

/-! ## The per-cluster request slicer (guest.go perCluster) -/

/-- The loop body of perCluster: as long as bytes remain, process
    `length = min(clusterSize - offset, remaining)` bytes of cluster idx,
    then advance to the next cluster with in-cluster offset 0.  On a
    segment error the bytes counted so far are returned with the error.
    Each iteration consumes at least one byte whenever offset < cs, so
    fuel = remaining suffices; fuel exhaustion is unreachable from
    perCluster's entry. -/
def perClusterLoop (cs : Nat) (f : Nat → Nat → Nat → Except Err (List Ev)) :
    Nat → Nat → Nat → Nat → Nat × List Ev × Option Err
  | 0, _, _, _ => (0, [], none)
  | fuel + 1, rem, idx, offset =>
    if rem = 0 then (0, [], none)
    else
      let length := min (cs - offset) rem
      match f idx offset length with
      | .error e => (0, [], some e)
      | .ok evs =>
        let r := perClusterLoop cs f fuel (rem - length) (idx + 1) 0
        (length + r.1, evs ++ r.2.1, r.2.2)

/-- guestImpl.perCluster: reject a request past the disk size with the
    out-of-bounds error before any I/O, else slice it into per-cluster
    segments starting at cluster `off / cs`, in-cluster offset `off % cs`. -/
def perCluster (cs size : Nat) (f : Nat → Nat → Nat → Except Err (List Ev))
    (len off : Nat) : Nat × List Ev × Option Err :=
  if off + len > size then (0, [], some .outOfBounds)
  else perClusterLoop cs f len len (off / cs) (off % cs)

/-- The per-cluster segment triples (idx, in-cluster offset, length) that
    perCluster's loop visits, in order. -/
def segments (cs : Nat) : Nat → Nat → Nat → Nat → List (Nat × Nat × Nat)
  | 0, _, _, _ => []
  | fuel + 1, rem, idx, offset =>
    if rem = 0 then []
    else
      let length := min (cs - offset) rem
      (idx, offset, length) :: segments cs fuel (rem - length) (idx + 1) 0

/-- guestImpl.ReadAt = perCluster applied to readCluster. -/
def readAt (env : GuestEnv) (len off : Nat) : Nat × List Ev × Option Err :=
  perCluster env.cs env.size (fun idx o l => readCluster env idx o l) len off

/-! ## The refcount manager (refcounts.go) -/

/-- Modelled from the spec: the repository's divceil helper is declared in
    a utility file that is not among the provided sources; §4.3 uses it as
    the ceiling `bytes = ⌈refcount_width / 8⌉`, so it is ceiling division. -/
def divceil (a b : Nat) : Nat := (a + b - 1) / b

/-- refcountsImpl.blockEntries: `clusterSize * 8 / bits`, the number of
    refcounts in one refcount block. -/
def blockEntries (cs bits : Nat) : Nat := cs * 8 / bits

/-- refcountsImpl.tableOffset: `8 * (idx / blockEntries)`, the byte offset
    within the refcount table of the entry covering cluster idx. -/
def tableOffset (cs bits idx : Nat) : Nat := 8 * (idx / blockEntries cs bits)

/-- refcountsImpl.max: the largest cluster index addressable without
    growing the table:
    `refcountClusters * (clusterSize / 8) * blockEntries`. -/
def rcMax (cs bits tclusters : Nat) : Nat := tclusters * (cs / 8) * blockEntries cs bits

/-- Big-endian assembly of the bytes buf[fileOff .. fileOff+nbytes) as in
    refcountsImpl.readBuf: `rc = rc<<8 + buf[i]` over the buffer. -/
def beBytes (byteAt : Nat → Nat) (fileOff nbytes : Nat) : Nat :=
  (List.range nbytes).foldl (fun rc i => rc * 256 + byteAt (fileOff + i)) 0

/-- A 64-bit big-endian word read (bio ReadUint64 / read64). -/
def word64 (byteAt : Nat → Nat) (off : Nat) : Nat := beBytes byteAt off 8

/-- refcountsImpl.read together with ioInfo and readBuf: with
    `offBits = bits * count`, read `divceil bits 8` bytes at
    `block + offBits / 8`, assemble them big-endian, shift right by
    `offBits % 8` and mask to `bits` bits. -/
def rcRead (byteAt : Nat → Nat) (bits block count : Nat) : Nat :=
  let offBits := bits * count
  let fileOff := block + offBits / 8
  beBytes byteAt fileOff (divceil bits 8) / 2 ^ (offBits % 8) % 2 ^ bits

/-- refcountsImpl.validateTableEntry: the low 9 bits must be clear
    (`entry &^ tableValid != 0` with tableValid = ^0x1ff, i.e.
    `entry % 512 ≠ 0` fails) and the entry must be cluster-aligned. -/
def validateTableEntry (cs entry : Nat) : Except Err Nat :=
  if entry % 512 ≠ 0 then .error .badTableEntry
  else if entry % cs ≠ 0 then .error .blockMisaligned
  else .ok entry

/-- The refcount manager's view of the container: geometry from the
    header plus a byte oracle for container reads. -/
structure RcEnv where
  cs : Nat
  bits : Nat
  refcountOffset : Nat
  refcountClusters : Nat
  byteAt : Nat → Nat

/-- refcountsImpl.readTableEntry: read the 64-bit word at
    `refcountOffset + tableOffset` and validate it. -/
def readTableEntry (env : RcEnv) (tblOff : Nat) : Except Err Nat :=
  validateTableEntry env.cs (word64 env.byteAt (env.refcountOffset + tblOff))

/-- Write events issued by the refcount manager. -/
inductive RAct where
  | zero (off len : Nat)                 -- io().Zero(off, len)
  | writeRc (blockOff slot rc : Nat)     -- refcountsImpl.write(blockOff, slot, rc)
  | refNewCluster (idx : Nat)            -- recursive r.refNewCluster(idx)
  | writeTable (off val : Nat)           -- io().WriteUint64 into the refcount table
  deriving DecidableEq, Repr

/-- refcountsImpl.refcountOp (refcounts.go, final revision), for an
    operation op given the current refcount and whether it is missing:
    if `tableOffset > clusterSize * refcountClusters` the refcount is
    treated as missing; else the table entry is read and validated, a zero
    entry or a zero stored refcount is missing, and otherwise op runs on
    the stored refcount, writing back only when it changes the value.
    Returns the resulting refcount and the write, if any. -/
def refcountOp (env : RcEnv) (idx : Nat) (op : Nat → Bool → Nat) :
    Except Err (Nat × List RAct) :=
  let epb := blockEntries env.cs env.bits
  let tblOff := tableOffset env.cs env.bits idx
  if tblOff > env.cs * env.refcountClusters then .ok (op 0 true, [])
  else do
    let entry ← readTableEntry env tblOff
    if entry = 0 then return (op 0 true, [])
    let count := idx % epb
    let rc := rcRead env.byteAt env.bits entry count
    if rc = 0 then return (op 0 true, [])
    let newRc := op rc false
    if newRc ≠ rc then return (newRc, [.writeRc entry count newRc])
    return (newRc, [])

/-- refcountsImpl.refcount: refcountOp with the identity operation,
    returning 0 for a missing refcount. -/
def refcountQ (env : RcEnv) (idx : Nat) : Except Err (Nat × List RAct) :=
  refcountOp env idx (fun rc missing => if missing then 0 else rc)

/-- The allocation step of refcountsImpl.allocRefcountBlock after the
    table lookup missed (refcounts.go lines 360-379): the freshly reserved
    free cluster blockIdx is zeroed; if
    `blockIdx > blockBlocksStart && blockIdx - blockBlocksStart < blockEntries`
    (with `blockBlocksStart = idx - idx % blockEntries`) the block is
    self-describing and refcount 1 for blockIdx is written inside the
    block itself at slot `blockIdx % blockEntries`, else the code recurses
    through refNewCluster(blockIdx); finally the block offset is written
    into the table entry at `tableOffset + refcountOffset`.  Returns the
    action list and the block offset. -/
def allocRefcountBlockMiss (cs epb refOff tblOff idx blockIdx : Nat) : List RAct × Nat :=
  let blockOff := blockIdx * cs
  let blockBlocksStart := idx - idx % epb
  let branch :=
    if blockIdx > blockBlocksStart && blockIdx - blockBlocksStart < epb then
      [RAct.writeRc blockOff (blockIdx % epb) 1]
    else
      [RAct.refNewCluster blockIdx]
  ([RAct.zero blockOff cs] ++ branch ++ [RAct.writeTable (tblOff + refOff) blockOff],
   blockOff)

/-- The tail of refcountsImpl.findFreeClusters: starting from the fast-scan
    hint, probe `refcount(i)` for increasing i and yield every index whose
    refcount is zero.  The first `fuel` probes of that loop. -/
def findFreeClustersYields (rcf : Nat → Nat) (start fuel : Nat) : List Nat :=
  ((List.range fuel).map (start + ·)).filter (fun i => rcf i == 0)

/-- growTable's newBlocks formula (refcounts.go line 299):
    `(preTableClusters + tableSize - 1) / (blockEntries - 1) + 1`. -/
def growNewBlocks (epb pre tableSize : Nat) : Nat :=
  (pre + tableSize - 1) / (epb - 1) + 1

/-- growTable's loop exit check (refcounts.go lines 301-305): with
    `maxOffset = tableSize * clusterSize`, require
    `tableOffset(newTableStart + tableSize + newBlocks) <= maxOffset`,
    where `tableOffset(x) = 8 * (x / blockEntries)`. -/
def growCheck (cs epb newTableStart tableSize : Nat) : Bool :=
  8 * ((newTableStart + tableSize + growNewBlocks epb (newTableStart % epb) tableSize) / epb)
    ≤ tableSize * cs

/-- The size-selection loop of refcountsImpl.growTable: starting from the
    current table size, double, compute newBlocks, and stop at the first
    doubling that passes growCheck.  Returns the selected
    (tableSize, newBlocks).  The fuel bounds the number of doublings; the
    loop in the source has no bound and terminates because the check's
    right side grows faster, so any sufficiently large fuel yields the
    selected pair. -/
def growSelect (cs epb newTableStart : Nat) : Nat → Nat → Option (Nat × Nat)
  | 0, _ => none
  | fuel + 1, tableSize =>
    let t := tableSize * 2
    if growCheck cs epb newTableStart t then
      some (t, growNewBlocks epb (newTableStart % epb) t)
    else
      growSelect cs epb newTableStart fuel t

/-- A concrete container layout exercising the refcount query at the
    refcount-table boundary: cluster size 512, 16-bit refcounts (256
    entries per block), a one-cluster refcount table at offset 2048, the
    8-byte word at offset 2048 + 512 (one entry past the table's last
    byte) holding the cluster-aligned value 1024, and the 16-bit refcount
    at (1024, slot 0) holding 5. -/
def rcEnv0 : RcEnv :=
  ⟨512, 16, 2048, 1, fun i => if i = 2566 then 4 else if i = 1025 then 5 else 0⟩

/-! ## Supporting lemmas -/

/-- Or-ing in the noCow bit yields a word whose noCow test succeeds. -/
theorem entryNoCowSet_lor (a : Nat) : entryNoCowSet (a ||| noCow) = true := by
  have h : (a ||| noCow).testBit 63 = true := by
    have h2 : noCow.testBit 63 = true := by decide
    simp [Nat.testBit_or, h2]
  rw [Nat.testBit_to_div_mod] at h
  simpa [entryNoCowSet] using h

/-- The free-cluster producer findFreeClusters yields cluster indices in
    strictly increasing order: a cluster reserved later is strictly larger
    than any cluster reserved earlier.  (This backs the freshness
    hypothesis of the allocRefcountBlock theorem: the block cluster is
    reserved from this stream after idx was.) -/
theorem findFreeClustersYields_increasing (rcf : Nat → Nat) (start fuel : Nat) :
    (findFreeClustersYields rcf start fuel).Pairwise (· < ·) := by
  unfold findFreeClustersYields
  refine List.Pairwise.sublist (List.filter_sublist _) ?_
  refine List.Pairwise.map _ (fun a b hab => ?_) (List.pairwise_lt_range fuel)
  omega

/-- The loop of perCluster does nothing once no bytes remain. -/
theorem perClusterLoop_zero (cs : Nat) (f : Nat → Nat → Nat → Except Err (List Ev))
    (fuel idx offset : Nat) : perClusterLoop cs f fuel 0 idx offset = (0, [], none) := by
  cases fuel <;> simp [perClusterLoop]

/-! ## Claim theorems -/

/-- C3 counterexample: the claim "writable(e) iff e has a nonzero
    offset and the no-COW bit is set" fails at the 64-bit word
    2^63 + 2^9 + 1, whose offset is 0x201 (nonzero) and whose no-COW bit
    is set, yet whose zero bit is also set, so mapEntry.writable is
    false. -/
theorem c3_writable_counterexample :
    ¬ (entryWritable (2 ^ 63 + 2 ^ 9 + 1) = true ↔
       (entryOffset (2 ^ 63 + 2 ^ 9 + 1) ≠ 0 ∧
        entryNoCowSet (2 ^ 63 + 2 ^ 9 + 1) = true)) := by
  decide

/-- C3 (amended): for every 64-bit mapping entry e, writable(e) holds iff
    e has a nonzero offset, the zero bit is clear, and the no-COW bit
    (bit 63) is set; and getEntry in writable mode performs no
    copy-on-write (its only container action is reading the entry and it
    returns the entry unchanged) exactly for such entries. -/
theorem c3_writable_iff :
    (∀ e : Nat, entryWritable e = true ↔
       (entryOffset e ≠ 0 ∧ entryZero e = false ∧ entryNoCowSet e = true)) ∧
    (∀ (env : GuestEnv) (validator : Nat → Option Err) (off : Nat),
       validator (env.word off) = none →
       (getEntry env validator off true = .ok (env.word off, [.read64 off]) ↔
        entryWritable (env.word off) = true)) := by
  constructor
  · intro e
    by_cases ho : entryOffset e = 0 <;> cases hz : entryZero e <;>
      cases hn : entryNoCowSet e <;>
      simp [entryWritable, entryHasOffset, entryCow, entryNil, ho, hz, hn]
  · intro env validator off hv
    by_cases hw : entryWritable (env.word off) = true
    · simp [getEntry, hv, hw]
    · rw [Bool.not_eq_true] at hw
      cases hho : entryHasOffset (env.word off) <;> simp [getEntry, hv, hw, hho]

/-- C3 amended witness: a concrete writable entry (offset 0x200, noCow
    set) and a concrete getEntry run that performs no COW on it. -/
theorem c3_writable_iff_witness :
    entryWritable (2 ^ 63 + 2 ^ 9) = true ∧
    getEntry ⟨512, 0, 4096, fun _ => 2 ^ 63 + 2 ^ 9, 7⟩ (validateL2 512) 40 true =
      .ok (2 ^ 63 + 2 ^ 9, [.read64 40]) := by
  refine ⟨(c3_writable_iff.1 (2 ^ 63 + 2 ^ 9)).mpr (by decide), ?_⟩
  exact (c3_writable_iff.2 ⟨512, 0, 4096, fun _ => 2 ^ 63 + 2 ^ 9, 7⟩
    (validateL2 512) 40 (by decide)).mpr (by decide)

/-- C8: autoclear() rewrites the header iff the autoclear bitmask has bits
    outside the known bitmaps bit; a rewrite masks the bitmask down to the
    bitmaps bit; the known bit is always preserved; and a second call
    after any call is a no-op. -/
theorem c8_autoclear :
    ∀ m : Nat,
      ((autoclearStep m).2 = true ↔ m - m % 2 ≠ 0) ∧
      (autoclearStep m).1 % 2 = m % 2 ∧
      ((autoclearStep m).2 = true → (autoclearStep m).1 = m % 2) ∧
      autoclearStep (autoclearStep m).1 = ((autoclearStep m).1, false) := by
  intro m
  by_cases h : m - m % 2 = 0
  · simp [autoclearStep, writeAutoclearMask, h]
  · simp [autoclearStep, writeAutoclearMask, h]

/-- C8 witness: the mask 5 (unknown bit 2 set) is rewritten to 1 and the
    second call does not rewrite. -/
theorem c8_autoclear_witness :
    (autoclearStep 5).1 = 5 % 2 ∧
    autoclearStep (autoclearStep 5).1 = ((autoclearStep 5).1, false) := by
  exact ⟨(c8_autoclear 5).2.2.1 (by decide), (c8_autoclear 5).2.2.2⟩

/-- C10: a zero-length guest request at an offset not past the disk size
    returns byte count 0 with no error, performs no container I/O, and
    never invokes the per-cluster worker (so no metadata lookup, no
    allocation): this holds for every worker f, hence for both ReadAt
    (f = readCluster) and WriteAt (f = writeCluster). -/
theorem c10_zero_length :
    ∀ (cs size : Nat) (f : Nat → Nat → Nat → Except Err (List Ev)) (off : Nat),
      off ≤ size → perCluster cs size f 0 off = (0, [], none) := by
  intro cs size f off h
  unfold perCluster
  rw [if_neg (by omega)]
  exact perClusterLoop_zero cs f 0 (off / cs) (off % cs)

/-- C10 witness: a zero-length request against an always-failing worker
    still returns (0, no I/O, no error). -/
theorem c10_zero_length_witness :
    (3 ≤ 10) ∧
    perCluster 512 10 (fun _ _ _ => .error .ioFailure) 0 3 = (0, [], none) :=
  ⟨by decide, c10_zero_length 512 10 (fun _ _ _ => .error .ioFailure) 3 (by decide)⟩

/-- C1: in allocRefcountBlock, for a freshly reserved free cluster
    blockIdx (the free-cluster stream yields strictly increasing indices,
    so blockIdx exceeds the idx whose refcount block is being allocated),
    whenever blockIdx - (idx - idx % blockEntries) lies in
    [0, blockEntries) — the lower bound being automatic in Nat — the
    refcount 1 for blockIdx is written inside the newly zeroed block
    itself at slot blockIdx % blockEntries with no recursive
    refNewCluster call, and the recursion happens exactly when blockIdx
    lies outside that interval. -/
theorem c1_self_describing_block :
    ∀ cs epb refOff tblOff idx blockIdx : Nat, idx < blockIdx →
      (blockIdx - (idx - idx % epb) < epb →
        (allocRefcountBlockMiss cs epb refOff tblOff idx blockIdx).1 =
          [.zero (blockIdx * cs) cs,
           .writeRc (blockIdx * cs) (blockIdx % epb) 1,
           .writeTable (tblOff + refOff) (blockIdx * cs)]) ∧
      (epb ≤ blockIdx - (idx - idx % epb) →
        (allocRefcountBlockMiss cs epb refOff tblOff idx blockIdx).1 =
          [.zero (blockIdx * cs) cs,
           .refNewCluster blockIdx,
           .writeTable (tblOff + refOff) (blockIdx * cs)]) := by
  intro cs epb refOff tblOff idx blockIdx hfresh
  have hgt : idx - idx % epb < blockIdx :=
    lt_of_le_of_lt (Nat.sub_le _ _) hfresh
  constructor
  · intro h
    simp [allocRefcountBlockMiss, hgt, h]
  · intro h
    simp [allocRefcountBlockMiss, hgt, Nat.not_lt.mpr h]

/-- C1 witness: with 4 entries per block, idx 5 and fresh cluster 6, the
    difference 6 - 4 = 2 is inside [0, 4), so refcount 1 is written at
    slot 2 of the new block at offset 6 * 512 = 3072. -/
theorem c1_self_describing_block_witness :
    (5 < 6) ∧
    (allocRefcountBlockMiss 512 4 2048 8 5 6).1 =
      [.zero 3072 512, .writeRc 3072 2 1, .writeTable 2056 3072] :=
  ⟨by decide,
   (c1_self_describing_block 512 4 2048 8 5 6 (by decide)).1 (by decide)⟩

/-- C2: when getEntry is asked for a writable entry and the current valid
    entry is not writable, the word written back to the parent slot is
    exactly newOff | noCow (with newOff = allocated index times cluster
    size), that word has bit 63 set, and the entry returned to the caller
    is that same value. -/
theorem c2_cow_writeback :
    ∀ (env : GuestEnv) (validator : Nat → Option Err) (off : Nat),
      validator (env.word off) = none →
      entryWritable (env.word off) = false →
      ∃ tr, getEntry env validator off true = .ok (env.allocIdx * env.cs ||| noCow, tr) ∧
        Ev.write64 off (env.allocIdx * env.cs ||| noCow) ∈ tr ∧
        entryNoCowSet (env.allocIdx * env.cs ||| noCow) = true := by
  intro env validator off hv hw
  cases hho : entryHasOffset (env.word off)
  · refine ⟨[.read64 off, .alloc 1, .fill (env.allocIdx * env.cs) env.cs,
      .write64 off (env.allocIdx * env.cs ||| noCow)], ?_, ?_, entryNoCowSet_lor _⟩
    · simp [getEntry, hv, hw, hho]
    · simp
  · refine ⟨[.read64 off, .alloc 1,
      .copy (env.allocIdx * env.cs) (entryOffset (env.word off)) env.cs,
      .write64 off (env.allocIdx * env.cs ||| noCow),
      .decrement (entryOffset (env.word off) / env.cs)], ?_, ?_, entryNoCowSet_lor _⟩
    · simp [getEntry, hv, hw, hho]
    · simp

/-- C2 witness: a concrete COW run: entry word 0 at parent offset 4096,
    allocated cluster 7, cluster size 512: the parent is rewritten with
    7 * 512 | 2^63 and that value is returned. -/
theorem c2_cow_writeback_witness :
    ∃ tr, getEntry ⟨512, 0, 1024, fun _ => 0, 7⟩ (validateL2 512) 4096 true =
        .ok (7 * 512 ||| noCow, tr) ∧
      Ev.write64 4096 (7 * 512 ||| noCow) ∈ tr ∧
      entryNoCowSet (7 * 512 ||| noCow) = true :=
  c2_cow_writeback ⟨512, 0, 1024, fun _ => 0, 7⟩ (validateL2 512) 4096
    (by decide) (by decide)

/-- Helper for C5: when the L1 word of a cluster is 0, readCluster's only
    container access is that single L1 read, and it zero-fills the
    caller's buffer. -/
theorem readCluster_nil_l1 (env : GuestEnv) (idx off len : Nat)
    (h : env.word (env.l1Position + idx / (env.cs / 8) * 8) = 0) :
    readCluster env idx off len =
      .ok [.read64 (env.l1Position + idx / (env.cs / 8) * 8), .zeroFill len] := by
  unfold readCluster getL2 getL1 getEntry readByL2 validateL1
  rw [h]
  simp [entryNil, entryOffset, entryZero, entryWritable, entryHasOffset, entryCow,
    entryNoCowSet, Nat.zero_mod, Bind.bind, Except.bind, Pure.pure, Except.pure]

/-- C5: an in-bounds guest ReadAt whose byte range lies inside one cluster
    and whose cluster index resolves to an L1 word equal to 0 succeeds
    with the full byte count, zero-fills the requested bytes, skips the L2
    lookup, and performs no container read other than the single 64-bit L1
    table word for that cluster. -/
theorem c5_nil_l1_read :
    ∀ (env : GuestEnv) (len off : Nat),
      0 < len → off + len ≤ env.size → off % env.cs + len ≤ env.cs →
      env.word (env.l1Position + off / env.cs / (env.cs / 8) * 8) = 0 →
      readAt env len off =
        (len, [.read64 (env.l1Position + off / env.cs / (env.cs / 8) * 8),
               .zeroFill len], none) := by
  intro env len off hlen hin hone hl1
  obtain ⟨n, rfl⟩ : ∃ n, len = n + 1 := ⟨len - 1, by omega⟩
  unfold readAt perCluster
  rw [if_neg (by omega)]
  have hmin : min (env.cs - off % env.cs) (n + 1) = n + 1 :=
    Nat.min_eq_right (by omega)
  have hrc := readCluster_nil_l1 env (off / env.cs) (off % env.cs) (n + 1) hl1
  simp [perClusterLoop, hmin, hrc, perClusterLoop_zero]

/-- C5 witness: cluster size 512, L1 table at 512, all container words 0:
    a 5-byte read at offset 0 returns 5 zero bytes after reading only the
    L1 word at offset 512. -/
theorem c5_nil_l1_read_witness :
    readAt ⟨512, 512, 4096, fun _ => 0, 0⟩ 5 0 =
      (5, [.read64 512, .zeroFill 5], none) := by
  have h := c5_nil_l1_read ⟨512, 512, 4096, fun _ => 0, 0⟩ 5 0
    (by decide) (by decide) (by decide) (by decide)
  simpa using h

/-- Helper for C6: if the per-cluster segment list decomposes as
    pre ++ seg :: post, every segment of pre succeeds and seg fails with
    e, then the loop returns the summed lengths of pre together with the
    error e. -/
theorem perClusterLoop_failure (cs : Nat) (f : Nat → Nat → Nat → Except Err (List Ev))
    (e : Err) :
    ∀ (fuel rem idx offset : Nat) (pre : List (Nat × Nat × Nat))
      (seg : Nat × Nat × Nat) (post : List (Nat × Nat × Nat)),
      segments cs fuel rem idx offset = pre ++ seg :: post →
      (∀ s ∈ pre, ∃ evs, f s.1 s.2.1 s.2.2 = .ok evs) →
      f seg.1 seg.2.1 seg.2.2 = .error e →
      (perClusterLoop cs f fuel rem idx offset).1 =
        (pre.map (fun s => s.2.2)).sum ∧
      (perClusterLoop cs f fuel rem idx offset).2.2 = some e := by
  intro fuel
  induction fuel with
  | zero =>
    intro rem idx offset pre seg post hseg hok hfail
    simp [segments] at hseg
  | succ n ih =>
    intro rem idx offset pre seg post hseg hok hfail
    by_cases hrem : rem = 0
    · simp [segments, hrem] at hseg
    · rw [show segments cs (n + 1) rem idx offset =
          (idx, offset, min (cs - offset) rem) ::
            segments cs n (rem - min (cs - offset) rem) (idx + 1) 0 from by
        simp [segments, hrem]] at hseg
      cases pre with
      | nil =>
        simp at hseg
        obtain ⟨hseg1, _⟩ := hseg
        rw [← hseg1] at hfail
        simp [perClusterLoop, hrem, hfail]
      | cons p ps =>
        simp at hseg
        obtain ⟨hp, hrest⟩ := hseg
        obtain ⟨evs, hevs⟩ := hok p (List.mem_cons_self p ps)
        rw [← hp] at hevs
        have hok2 : ∀ s ∈ ps, ∃ evs, f s.1 s.2.1 s.2.2 = .ok evs :=
          fun s hs => hok s (List.mem_cons_of_mem p hs)
        have hrec := ih (rem - min (cs - offset) rem) (idx + 1) 0 ps seg post hrest hok2 hfail
        rw [← hp]
        simp only [] at hevs
        simp [perClusterLoop, hrem, hevs, hrec.1, hrec.2]

/-- C6: a guest request past the disk size fails with the out-of-bounds
    error, returns byte count 0 and performs no container I/O; an
    in-bounds request whose per-cluster segments succeed up to a failing
    segment returns exactly the summed lengths of the completed segments
    together with that segment's error.  Both parts hold for every
    per-cluster worker f, hence for ReadAt and WriteAt. -/
theorem c6_bounds_and_progress :
    (∀ (cs size : Nat) (f : Nat → Nat → Nat → Except Err (List Ev)) (len off : Nat),
       size < off + len →
       perCluster cs size f len off = (0, [], some .outOfBounds)) ∧
    (∀ (cs size : Nat) (f : Nat → Nat → Nat → Except Err (List Ev)) (len off : Nat)
       (e : Err) (pre : List (Nat × Nat × Nat)) (seg : Nat × Nat × Nat)
       (post : List (Nat × Nat × Nat)),
       off + len ≤ size →
       segments cs len len (off / cs) (off % cs) = pre ++ seg :: post →
       (∀ s ∈ pre, ∃ evs, f s.1 s.2.1 s.2.2 = .ok evs) →
       f seg.1 seg.2.1 seg.2.2 = .error e →
       (perCluster cs size f len off).1 = (pre.map (fun s => s.2.2)).sum ∧
       (perCluster cs size f len off).2.2 = some e) := by
  constructor
  · intro cs size f len off h
    unfold perCluster
    rw [if_pos (by omega)]
  · intro cs size f len off e pre seg post hin hseg hok hfail
    unfold perCluster
    rw [if_neg (by omega)]
    exact perClusterLoop_failure cs f e len len (off / cs) (off % cs)
      pre seg post hseg hok hfail

/-- C6 witness: an 8-byte request at offset 5 against a 10-byte disk is
    rejected with no I/O; and with cluster size 4, a 6-byte request at
    offset 2 whose first segment (cluster 0, offset 2, length 2) succeeds
    and whose second segment (cluster 1) fails returns byte count 2 and
    the failure. -/
theorem c6_bounds_and_progress_witness :
    perCluster 512 10 (fun _ _ _ => .ok []) 8 5 = (0, [], some .outOfBounds) ∧
    ((perCluster 4 100 (fun idx _ _ => if idx = 0 then .ok [] else .error .ioFailure)
        6 2).1 = 2 ∧
     (perCluster 4 100 (fun idx _ _ => if idx = 0 then .ok [] else .error .ioFailure)
        6 2).2.2 = some .ioFailure) := by
  constructor
  · exact c6_bounds_and_progress.1 512 10 (fun _ _ _ => .ok []) 8 5 (by decide)
  · have h := c6_bounds_and_progress.2 4 100
      (fun idx _ _ => if idx = 0 then .ok [] else .error .ioFailure) 6 2 .ioFailure
      [(0, 2, 2)] (1, 0, 4) [] (by decide) (by decide)
      (by intro s hs; simp at hs; subst hs; exact ⟨[], rfl⟩) rfl
    simpa using h

/-- Helper for C9: q = (a - 1) / b + 1 is exactly the ceiling of a / b for
    positive a and b: it is large enough (a ≤ q * b) and minimal
    ((q - 1) * b < a). -/
theorem ceil_div_bounds (a b : Nat) (hb : 0 < b) (ha : 0 < a) :
    a ≤ ((a - 1) / b + 1) * b ∧ ((a - 1) / b) * b < a := by
  have hq := Nat.div_add_mod (a - 1) b
  have hr : (a - 1) % b < b := Nat.mod_lt _ hb
  have hmul : ((a - 1) / b + 1) * b = b * ((a - 1) / b) + b := by ring
  have hmul2 : ((a - 1) / b) * b = b * ((a - 1) / b) := by ring
  omega

/-- C9 counterexample: the claim's inequality
    newBlocks ≥ (pre + t) / (entriesPerBlock − 1) + 1 and its
    addressability condition both fail on the selection the growTable loop
    actually makes.  With cluster size 512 and 64 entries per block:
    from table start 61 the loop selects (t, newBlocks) = (2, 1) although
    the claim demands newBlocks ≥ (61 + 2)/63 + 1 = 2; from table start
    8190 it selects (2, 2) although the highest involved index
    8190 + 2 + 2 = 8194 is not below the new table's max() = 8192. -/
theorem c9_growth_counterexample :
    (growSelect 512 64 61 64 1 = some (2, 1) ∧
     ¬ ((61 % 64 + 2) / (64 - 1) + 1 ≤ 1)) ∧
    (growSelect 512 64 8190 64 1 = some (2, 2) ∧
     ¬ (8190 + 2 + 2 < rcMax 512 64 2)) := by
  refine ⟨⟨?_, by decide⟩, ⟨?_, by decide⟩⟩ <;> decide

/-- C9 (amended): for the tableSize t and newBlocks n that the growTable
    loop finally selects (entriesPerBlock ≥ 2, starting table size ≥ 1):
    n = ⌊(pre + t − 1) / (entriesPerBlock − 1)⌋ + 1, which is exactly the
    least n with pre + t ≤ n · (entriesPerBlock − 1); the loop's own check
    8 · ⌊(start + t + n) / entriesPerBlock⌋ ≤ t · clusterSize holds for
    the selection (the highest involved index fits the check, which at the
    boundary admits an index equal to or slightly above the new table's
    max()); and t is obtained by monotonically doubling the current size,
    stopping at the first doubling that passes the check. -/
theorem c9_growth_selection :
    ∀ (cs epb S : Nat) (fuel cur t n : Nat), 2 ≤ epb → 1 ≤ cur →
      growSelect cs epb S fuel cur = some (t, n) →
      n = (S % epb + t - 1) / (epb - 1) + 1 ∧
      S % epb + t ≤ n * (epb - 1) ∧
      (n - 1) * (epb - 1) < S % epb + t ∧
      growCheck cs epb S t = true ∧
      ∃ k, t = cur * 2 ^ (k + 1) ∧
        ∀ j < k, growCheck cs epb S (cur * 2 ^ (j + 1)) = false := by
  intro cs epb S fuel
  induction fuel with
  | zero => intro cur t n _ _ hsel; simp [growSelect] at hsel
  | succ m ih =>
    intro cur t n hepb hcur hsel
    rw [show growSelect cs epb S (m + 1) cur =
        (if growCheck cs epb S (cur * 2) then
          some (cur * 2, growNewBlocks epb (S % epb) (cur * 2))
        else growSelect cs epb S m (cur * 2)) from rfl] at hsel
    by_cases hc : growCheck cs epb S (cur * 2) = true
    · rw [if_pos hc] at hsel
      obtain ⟨ht, hn⟩ : cur * 2 = t ∧ growNewBlocks epb (S % epb) (cur * 2) = n := by
        have := Option.some.inj hsel
        exact ⟨congrArg Prod.fst this, congrArg Prod.snd this⟩
      subst ht
      have hb : 0 < epb - 1 := by omega
      have ha : 0 < S % epb + cur * 2 := by omega
      have hbounds := ceil_div_bounds (S % epb + cur * 2) (epb - 1) hb ha
      refine ⟨hn.symm, ?_, ?_, hc, 0, by ring, by omega⟩
      · rw [← hn]; exact hbounds.1
      · rw [← hn]
        simpa [growNewBlocks] using hbounds.2
    · rw [if_neg hc] at hsel
      have hrec := ih (cur * 2) t n hepb (by omega) hsel
      obtain ⟨h1, h2, h3, h4, k, hk, hmin⟩ := hrec
      refine ⟨h1, h2, h3, h4, k + 1, ?_, ?_⟩
      · rw [hk]; ring
      · intro j hj
        cases j with
        | zero =>
          simpa using Bool.not_eq_true _ |>.mp hc
        | succ j2 =>
          have : cur * 2 ^ (j2 + 1 + 1) = cur * 2 * 2 ^ (j2 + 1) := by ring
          rw [this]
          exact hmin j2 (by omega)

/-- C9 amended witness: the selection (2, 1) from table start 61 with 64
    entries per block satisfies the amended conditions; in particular
    1 · 63 ≥ 61 % 64 + 2. -/
theorem c9_growth_selection_witness :
    growSelect 512 64 61 64 1 = some (2, 1) ∧
    (1 = (61 % 64 + 2 - 1) / (64 - 1) + 1 ∧ 61 % 64 + 2 ≤ 1 * (64 - 1)) := by
  have h := c9_growth_selection 512 64 61 64 1 2 1 (by decide) (by decide) (by decide)
  exact ⟨by decide, h.1, h.2.1⟩

/-- C4: the refcount query treats an index as missing only when its table
    offset strictly exceeds the refcount table's byte size, so at the
    boundary table_offset(idx) = refcount_table_clusters × cluster_size
    (the first offset past the table) it reads the 8-byte word just past
    the table instead of returning 0.  In the concrete layout rcEnv0
    (one-cluster table, 16-bit refcounts) the cluster index 16384 has
    table offset 512 = table byte size, yet refcount returns 5, read
    through the out-of-table word at container offset 2048 + 512 — where
    the claim (and the matching >= test in allocRefcountBlock) requires
    the result 0. -/
theorem c4_boundary_overread :
    refcountQ rcEnv0 16384 = .ok (5, []) ∧
    rcEnv0.cs * rcEnv0.refcountClusters ≤ tableOffset rcEnv0.cs rcEnv0.bits 16384 := by
  exact ⟨rfl, by decide⟩

/-- Helper for C7: if bit N of unknown is set and N is below the loop
    bound, the name chosen for bit i + N appears in the collected name
    list started at index i. -/
theorem nameForBit_mem_collectNames (fns : List FeatureName) :
    ∀ (fuel u i N : Nat), N < fuel → u / 2 ^ N % 2 = 1 →
      nameForBit fns (i + N) ∈ collectNames fns fuel u i := by
  intro fuel
  induction fuel with
  | zero => intro u i N h; omega
  | succ m ih =>
    intro u i N hN hbit
    have hu : u ≠ 0 := by
      intro h
      rw [h] at hbit
      simp at hbit
    cases N with
    | zero =>
      simp at hbit
      simp [collectNames, hu, hbit]
    | succ M =>
      have hbit2 : u / 2 / 2 ^ M % 2 = 1 := by
        rw [Nat.div_div_eq_div_mul]
        rw [show 2 * 2 ^ M = 2 ^ (M + 1) from by ring]
        exact hbit
      have hmem := ih (u / 2) (i + 1) M (by omega) hbit2
      rw [show i + 1 + M = i + (M + 1) from by omega] at hmem
      simp [collectNames, hu]
      right
      exact hmem

/-- Helper for C7: a member of a name list appears verbatim inside the
    comma-joined string. -/
theorem joinComma_mem_split (a : String) :
    ∀ l : List String, a ∈ l →
      ∃ pre post, joinComma l = (pre ++ a) ++ post := by
  intro l
  induction l with
  | nil => intro h; simp at h
  | cons x xs ih =>
    intro hmem
    cases xs with
    | nil =>
      simp at hmem
      refine ⟨"", "", ?_⟩
      rw [String.append_empty, String.empty_append, hmem]
      rfl
    | cons y ys =>
      rcases List.mem_cons.mp hmem with h | h
      · refine ⟨"", ", " ++ joinComma (y :: ys), ?_⟩
        rw [String.empty_append, ← String.append_assoc, h]
        rfl
      · obtain ⟨p, q, hpq⟩ := ih h
        refine ⟨x ++ ", " ++ p, q, ?_⟩
        rw [show joinComma (x :: y :: ys) = x ++ ", " ++ joinComma (y :: ys) from rfl, hpq]
        simp [String.append_assoc]

/-- Helper for C7: clearing the two known bits does not change any bit at
    position 2 or above. -/
theorem unknown_bit_eq (incompat N : Nat) (h2 : 2 ≤ N) :
    (incompat - incompat % 4) / 2 ^ N = incompat / 2 ^ N := by
  obtain ⟨M, rfl⟩ : ∃ M, N = M + 2 := ⟨N - 2, by omega⟩
  have h4 : incompat - incompat % 4 = 4 * (incompat / 4) := by omega
  rw [h4, show (2 : Nat) ^ (M + 2) = 4 * 2 ^ M from by ring,
    Nat.mul_div_mul_left _ _ (by omega : 0 < 4), ← Nat.div_div_eq_div_mul]

/-- C7: for a v3 header, the feature gate fails exactly when the
    incompatible bitmask has unknown bits after clearing the known dirty
    and corrupt bits, or the dirty bit is set, or the corrupt bit is set;
    and whenever an unknown incompatible bit N is set and no feature-name
    record of type incompatible names it, the failure message produced by
    checkIncompatibleFeatures contains the text "bit N". -/
theorem c7_incompatible_gate :
    (∀ (incompat : Nat) (fns : List FeatureName),
       readFeatureGate 3 incompat fns ≠ none ↔
         (incompat - incompat % 4 ≠ 0 ∨ incompat % 2 = 1 ∨ incompat / 2 % 2 = 1)) ∧
    (∀ (incompat : Nat) (fns : List FeatureName) (N : Nat),
       2 ≤ N → N < 64 → incompat / 2 ^ N % 2 = 1 →
       (∀ fn ∈ fns, ¬(fn.ftype = 0 ∧ fn.bit = N)) →
       ∃ msg pre post, checkIncompatibleFeatures incompat fns = some msg ∧
         msg = (pre ++ ("bit " ++ toString N)) ++ post) := by
  constructor
  · intro incompat fns
    by_cases hc : incompat / 2 % 2 = 1 <;> by_cases hd : incompat % 2 = 1 <;>
      by_cases hu : incompat - incompat % 4 = 0 <;>
      simp [readFeatureGate, checkIncompatibleFeatures, hc, hd, hu]
  · intro incompat fns N h2 h64 hbit hname
    have hbitu : (incompat - incompat % 4) / 2 ^ N % 2 = 1 := by
      rw [unknown_bit_eq incompat N h2]
      exact hbit
    have hu : incompat - incompat % 4 ≠ 0 := by
      intro h
      rw [h] at hbitu
      simp at hbitu
    have hfind : fns.find? (fun fn => fn.ftype == 0 && fn.bit == N) = none := by
      refine List.find?_eq_none.mpr fun fn hfn => ?_
      simp only [Bool.and_eq_true, beq_iff_eq]
      exact fun h => hname fn hfn ⟨h.1, h.2⟩
    have hnb : nameForBit fns N = "bit " ++ toString N := by
      rw [nameForBit, hfind]
    have hmem := nameForBit_mem_collectNames fns 64 (incompat - incompat % 4) 0 N h64 hbitu
    rw [Nat.zero_add] at hmem
    rw [hnb] at hmem
    obtain ⟨p, q, hpq⟩ := joinComma_mem_split _ _ hmem
    refine ⟨"Incompatible features: " ++
      joinComma (collectNames fns 64 (incompat - incompat % 4) 0),
      "Incompatible features: " ++ p, q, ?_, ?_⟩
    · simp [checkIncompatibleFeatures, hu]
    · rw [hpq, ← String.append_assoc, ← String.append_assoc]

/-- C7 witness: a v3 header with incompatible bit 4 set and no
    feature-name records is refused, and the unknown-bit message contains
    "bit 4". -/
theorem c7_incompatible_gate_witness :
    readFeatureGate 3 16 [] ≠ none ∧
    ∃ msg pre post, checkIncompatibleFeatures 16 [] = some msg ∧
      msg = (pre ++ ("bit " ++ toString 4)) ++ post := by
  constructor
  · exact (c7_incompatible_gate.1 16 []).mpr (Or.inl (by decide))
  · exact c7_incompatible_gate.2 16 [] 4 (by decide) (by decide) (by decide)
      (by intro fn hfn; simp at hfn)

end Qcow2
